import Mathlib

/-!
# MMMEngine: reflective JSON serializer and generational object handles

A shallow embedding of `MMMEngineLib/JsonSerializer.h` and `MMMEngineLib/Object.inl`.

* The JSON library value (`nlohmann::json`) is a tree; only the operations the
  serializer calls on it are modelled (`contains`, `is_object`, `operator[]`).
* The reflection provider (`rttr::type`, `rttr::property`, `rttr::variant`) is an
  external collaborator: a `type` is a name and an ordered list of `property`
  descriptors, each a name with a getter and a setter over an arbitrary object
  state and an arbitrary dynamic value type.
* `SerializeVariant` and `DeserializeVariant` are declared in `JsonSerializer.h` but
  defined elsewhere; they are the two fields of `JsonSerializer`.
* `ObjectManager` is not among the sources; the handle operations of `Object.inl`
  take its `IsValidPtr` query as an argument, and the pool itself is modelled from
  the specification where a property is about `Create`/`Destroy`.
-/

namespace MMMEngine

/-! ## JSON value tree -/

/-- Value tree of the JSON library. Floating point numbers and binary blobs are left
out: the serializer never inspects a leaf, it only stores and looks up members. -/
inductive json where
  | null
  | boolean (b : Bool)
  | number_integer (n : Int)
  | string (s : String)
  | array (items : List json)
  | object (members : List (String × json))

namespace json

/-- Member lookup in an object's key/value list. -/
def find (members : List (String × json)) (key : String) : Option json :=
  match members with
  | [] => none
  | (k, v) :: rest => if k = key then some v else find rest key

/-- Insert-or-assign of one member: an existing key keeps its place and gets the new
value, a new key is added. Keys stay unique; their order is not observable through
`contains` and `operator[]`. -/
def assign (members : List (String × json)) (key : String) (value : json) :
    List (String × json) :=
  match members with
  | [] => [(key, value)]
  | (k, v) :: rest =>
    if k = key then (key, value) :: rest else (k, v) :: assign rest key value

/-- The call `j.is_object()`. -/
def is_object (j : json) : Bool :=
  match j with
  | object _ => true
  | _ => false

/-- The call `j.contains(key)`: false on anything that is not an object. -/
def contains (j : json) (key : String) : Bool :=
  match j with
  | object members => (find members key).isSome
  | _ => false

/-- Read access `j[key]` on a const value. The library leaves a missing key undefined;
every call site checks `contains` first, and the model answers `null` there. -/
def get (j : json) (key : String) : json :=
  match j with
  | object members => (find members key).getD null
  | _ => null

/-- Write access `j[key] = value`: a `null` value silently becomes an object, an object
gets the member inserted or assigned. Other kinds raise a type error in the library;
the serializer never writes into one, and the model leaves them as they are. -/
def set (j : json) (key : String) (value : json) : json :=
  match j with
  | null => object [(key, value)]
  | object members => object (assign members key value)
  | other => other

end json

/-! ## Reflection provider -/

/-- A reflected property: `get_name`, `get_value(obj)` and `set_value(obj, value)`.
The boolean that the library's `set_value` returns is discarded by the serializer,
so the setter is modelled by the object state it leaves behind. -/
structure property (Object variant : Type) where
  get_name : String
  get_value : Object → variant
  set_value : Object → variant → Object

/-- A reflected type: `get_name()` and `get_properties()` in declaration order. -/
structure type (Object variant : Type) where
  get_name : String
  get_properties : List (property Object variant)

/-! ## JsonSerializer -/

/-- The serializer with its two private conversion members. `SerializeVariant` returns
`std::optional<json>`; `DeserializeVariant` returns its `bool` together with the
content of the in/out `variant&` argument after the call. -/
structure JsonSerializer (variant : Type) where
  SerializeVariant : variant → Option json
  DeserializeVariant : json → variant → Bool × variant

namespace JsonSerializer

variable {Object variant : Type}

/-- Body of the loop of `Serialize` (lines 37-46) for one property. -/
def serializeProperty (self : JsonSerializer variant) (obj : Object) (objJson : json)
    (prop : property Object variant) : json :=
  let propName := prop.get_name
  let value := prop.get_value obj
  match self.SerializeVariant value with
  | some jsonValue => objJson.set "properties" ((objJson.get "properties").set propName jsonValue)
  | none => objJson

/-- `JsonSerializer::Serialize` (lines 28-49). -/
def Serialize (self : JsonSerializer variant) (type_get : Object → type Object variant)
    (obj : Object) : json :=
  let objJson := json.null
  let t := type_get obj
  let objJson := objJson.set "type" (json.string t.get_name)
  let objJson := objJson.set "properties" (json.object [])
  t.get_properties.foldl (serializeProperty self obj) objJson

/-- Body of the loop of `Deserialize` (lines 58-70) for one property. -/
def deserializeProperty (self : JsonSerializer variant) (j : json) (obj : Object)
    (prop : property Object variant) : Object :=
  let propName := prop.get_name
  if !(j.get "properties").contains propName then obj
  else
    let propValue := prop.get_value obj
    match self.DeserializeVariant ((j.get "properties").get propName) propValue with
    | (true, propValue) => prop.set_value obj propValue
    | (false, _) => obj

/-- `JsonSerializer::Deserialize` (lines 51-73): the returned `bool` and the state of
`obj` after the call. -/
def Deserialize (self : JsonSerializer variant) (type_get : Object → type Object variant)
    (j : json) (obj : Object) : Bool × Object :=
  if !j.contains "properties" || !(j.get "properties").is_object then (false, obj)
  else
    let t := type_get obj
    (true, t.get_properties.foldl (deserializeProperty self j) obj)

/-- Value a property holds after its own pass through the loop of `Deserialize`, as a
function of the value `current` it held before: the converted value when the document
has the property and the conversion succeeds, `current` otherwise. -/
def convertedValue (self : JsonSerializer variant) (j : json) (propName : String)
    (current : variant) : variant :=
  if !(j.get "properties").contains propName then current
  else
    match self.DeserializeVariant ((j.get "properties").get propName) current with
    | (true, propValue) => propValue
    | (false, _) => current

/-- Members of `objJson["properties"]` after the loop of `Serialize` went through
`props`, starting from the members `acc`. -/
def serializedMembers (self : JsonSerializer variant) (obj : Object)
    (props : List (property Object variant)) (acc : List (String × json)) :
    List (String × json) :=
  props.foldl (fun acc prop =>
    match self.SerializeVariant (prop.get_value obj) with
    | some jsonValue => json.assign acc prop.get_name jsonValue
    | none => acc) acc

end JsonSerializer

/-- The declared properties behave like the named fields of a record: names are
pairwise distinct, a property reads back the value the serializer converted for it
and wrote through its setter, and writing one property leaves every other declared
property as it was. -/
structure ReflectsFields {Object variant : Type} (serializer : JsonSerializer variant)
    (props : List (property Object variant)) : Prop where
  names_nodup : (props.map property.get_name).Nodup
  set_converted : ∀ p ∈ props, ∀ (o : Object) (j : json) (v : variant),
    serializer.DeserializeVariant j (p.get_value o) = (true, v) →
    p.get_value (p.set_value o v) = v
  set_other : ∀ p ∈ props, ∀ q ∈ props, p.get_name ≠ q.get_name →
    ∀ (o : Object) (v : variant), q.get_value (p.set_value o v) = q.get_value o

/-! ## A registered type with two properties

`Player` has an integer `health` and a string `name`; its setters reject a value of
the wrong kind, as the reflection library does. The conversions cover the primitive
scalars, strings and booleans. -/

namespace Sample

/-- Dynamic value container restricted to the kinds the example uses. -/
inductive variant where
  | int (n : Int)
  | string (s : String)
  | bool (b : Bool)
  | pointer (address : Nat)
  deriving DecidableEq

/-- State of a `Player` object. -/
structure Player where
  health : Int
  name : String
  deriving DecidableEq

/-- Property `health`. -/
def health : property Player variant where
  get_name := "health"
  get_value := fun o => variant.int o.health
  set_value := fun o v =>
    match v with
    | variant.int n => { o with health := n }
    | _ => o

/-- Property `name`. -/
def name : property Player variant where
  get_name := "name"
  get_value := fun o => variant.string o.name
  set_value := fun o v =>
    match v with
    | variant.string s => { o with name := s }
    | _ => o

/-- The registered type of `Player`. -/
def playerType : type Player variant where
  get_name := "Player"
  get_properties := [health, name]

/-- Modelled from the spec: `SerializeVariant` and `DeserializeVariant`, whose bodies
are not among the sources. Integers, strings and booleans convert exactly; any other
kind is not convertible; a node converts only into the kind the target already holds. -/
def serializer : JsonSerializer variant where
  SerializeVariant := fun var =>
    match var with
    | variant.int n => some (json.number_integer n)
    | variant.string s => some (json.string s)
    | variant.bool b => some (json.boolean b)
    | variant.pointer _ => none
  DeserializeVariant := fun j var =>
    match j, var with
    | json.number_integer n, variant.int _ => (true, variant.int n)
    | json.string s, variant.string _ => (true, variant.string s)
    | json.boolean b, variant.bool _ => (true, variant.bool b)
    | _, _ => (false, var)

/-- A converter for which every conversion fails, in both directions. -/
def failing : JsonSerializer variant where
  SerializeVariant := fun _ => none
  DeserializeVariant := fun _ var => (false, var)

/-- Every object of the example has the type `Player`. -/
def type_get (_ : Player) : type Player variant := playerType

/-- A player with property values `health = 100`, `name = "Hero"`. -/
def hero : Player := ⟨100, "Hero"⟩

/-- A freshly constructed player. -/
def fresh : Player := ⟨0, ""⟩

/-- A player that already has values. -/
def veteran : Player := ⟨7, "Old"⟩

/-- The document of `hero`. -/
def heroDocument : json :=
  json.object [("type", json.string "Player"),
    ("properties", json.object [("health", json.number_integer 100),
      ("name", json.string "Hero")])]

/-- A document without the key `properties`. -/
def headerOnly : json := json.object [("type", json.string "Player")]

/-- A document whose `properties` has `health` but not `name`. -/
def healthOnly : json :=
  json.object [("type", json.string "Player"),
    ("properties", json.object [("health", json.number_integer 55)])]

/-- Property `health` registered read-only: `set_value` fails and writes nothing.
The serializer drops the `bool` that would report it (line 68). -/
def readOnlyHealth : property Player variant where
  get_name := "health"
  get_value := fun o => variant.int o.health
  set_value := fun o _ => o

/-- A registered type whose `health` is read-only. -/
def readOnlyType : type Player variant where
  get_name := "Player"
  get_properties := [readOnlyHealth, name]

/-- Every object of this example has the type with the read-only `health`. -/
def readOnly_type_get (_ : Player) : type Player variant := readOnlyType

/-- Property `health` registered with a setter function that also marks the name. -/
def linkedHealth : property Player variant where
  get_name := "health"
  get_value := fun o => variant.int o.health
  set_value := fun o v =>
    match v with
    | variant.int n => { health := n, name := "touched" }
    | _ => o

/-- A registered type whose `health` setter writes `name` too. -/
def linkedType : type Player variant where
  get_name := "Player"
  get_properties := [name, linkedHealth]

/-- Every object of this example has the type with the linked setter. -/
def linked_type_get (_ : Player) : type Player variant := linkedType

end Sample

/-! ## Handles (`Object.inl`) -/

/-- A handle `ObjectPtr<T>`: the cached raw address, the slot index and the generation.
Addresses are natural numbers, `0` standing for the null pointer. -/
structure ObjectPtr where
  m_raw : Nat
  m_ptrID : Nat
  m_ptrGeneration : Nat
  deriving DecidableEq

namespace ObjectPtr

/-- Accessor `GetPtrID()` of `ObjectPtrBase`. -/
def GetPtrID (self : ObjectPtr) : Nat := self.m_ptrID

/-- Accessor `GetPtrGeneration()` of `ObjectPtrBase`. -/
def GetPtrGeneration (self : ObjectPtr) : Nat := self.m_ptrGeneration

/-- Accessor `GetBase()` of `ObjectPtrBase`: the cached address. -/
def GetBase (self : ObjectPtr) : Nat := self.m_raw

/-- `ObjectPtr<T>::IsValid` (lines 13-17). `IsValidPtr` is the query
`ObjectManager::Get().IsValidPtr` of the current pool state. -/
def IsValid (IsValidPtr : Nat → Nat → Nat → Bool) (self : ObjectPtr) : Bool :=
  IsValidPtr self.m_ptrID self.m_ptrGeneration self.m_raw

/-- `ObjectPtr<T>::IsSameObject` (lines 19-32). -/
def IsSameObject (IsValidPtr : Nat → Nat → Nat → Bool) (self other : ObjectPtr) : Bool :=
  if self.m_ptrID != other.GetPtrID || self.m_ptrGeneration != other.GetPtrGeneration then
    false
  else
    self.IsValid IsValidPtr &&
      IsValidPtr other.GetPtrID other.GetPtrGeneration other.GetBase

end ObjectPtr

/-- The identity an `Object` carries: its own address (`this`), slot index and
generation. -/
structure Object where
  address : Nat
  m_ptrID : Nat
  m_ptrGen : Nat
  deriving DecidableEq

/-! ## Object pool -/

/-- Modelled from the spec: one storage cell of the pool (`ObjectManager.h` is not among
the sources): `occupied`, the `generation` counter and the `payload`. -/
structure Slot where
  occupied : Bool
  generation : Nat
  payload : Object
  deriving DecidableEq

/-- Modelled from the spec: the pool `ObjectManager`, a slot array. -/
structure ObjectManager where
  slots : List Slot
  deriving DecidableEq

namespace ObjectManager

/-- Modelled from the spec: the pool before the first `Create`. -/
def empty : ObjectManager := ⟨[]⟩

/-- Modelled from the spec: `IsValidPtr(slotIndex, generation, cachedAddress)`: the
slot is occupied, its generation equals the given one, and the cached address is the
address of the slot's current payload. -/
def IsValidPtr (m : ObjectManager) (slotIndex generation cachedAddress : Nat) : Bool :=
  match m.slots[slotIndex]? with
  | none => false
  | some s => s.occupied && s.generation == generation && s.payload.address == cachedAddress

/-- Modelled from the spec: `GetPtrFast(rawInstancePointer, id, generation)` rebuilds a
handle from an identity the object already knows, without scanning the pool. -/
def GetPtrFast (rawInstancePointer id generation : Nat) : ObjectPtr :=
  ⟨rawInstancePointer, id, generation⟩

/-- Modelled from the spec: the first previously freed slot, with its index. -/
def freeSlot (m : ObjectManager) : Option (Nat × Slot) :=
  match m.slots.findIdx? (fun s => !s.occupied) with
  | some i => (m.slots[i]?).map (fun s => (i, s))
  | none => none

/-- Modelled from the spec: `Create<T>`: reuses a freed slot when there is one, else
grows the storage by one slot; the object is constructed at `address` and gets the
slot's current generation as its identity; the handle carries slot index and
generation. A new slot starts at generation 0. -/
def CreatePtr (m : ObjectManager) (address : Nat) : ObjectManager × ObjectPtr :=
  match m.freeSlot with
  | some (i, s) =>
    (⟨m.slots.set i ⟨true, s.generation, ⟨address, i, s.generation⟩⟩⟩,
      ⟨address, i, s.generation⟩)
  | none =>
    (⟨m.slots ++ [⟨true, 0, ⟨address, m.slots.length, 0⟩⟩]⟩,
      ⟨address, m.slots.length, 0⟩)

/-- Modelled from the spec: `Destroy(handle)`: on a valid handle the slot is marked free
and its generation is incremented; on an invalid handle nothing happens. -/
def Destroy (m : ObjectManager) (h : ObjectPtr) : ObjectManager :=
  if m.IsValidPtr h.m_ptrID h.m_ptrGeneration h.m_raw then
    match m.slots[h.m_ptrID]? with
    | some s => ⟨m.slots.set h.m_ptrID { s with occupied := false, generation := s.generation + 1 }⟩
    | none => m
  else m

end ObjectManager

/-- One mutating operation on the pool. -/
inductive PoolOp where
  | create (address : Nat)
  | destroy (h : ObjectPtr)

namespace ObjectManager

/-- Pool state after one operation. -/
def step (m : ObjectManager) (op : PoolOp) : ObjectManager :=
  match op with
  | PoolOp.create address => (m.CreatePtr address).1
  | PoolOp.destroy h => m.Destroy h

/-- Pool state after a sequence of operations. -/
def run (m : ObjectManager) (ops : List PoolOp) : ObjectManager :=
  ops.foldl step m

/-- Every live object carries the index and the generation of the slot it occupies. -/
def Consistent (m : ObjectManager) : Prop :=
  ∀ (i : Nat) (s : Slot), m.slots[i]? = some s → s.occupied = true →
    s.payload.m_ptrID = i ∧ s.payload.m_ptrGen = s.generation

end ObjectManager

namespace Sample

/-- The pool after one `Create` at address 1000. -/
def poolOne : ObjectManager := (ObjectManager.empty.CreatePtr 1000).1

/-- The handle that `Create` returned. -/
def firstHandle : ObjectPtr := (ObjectManager.empty.CreatePtr 1000).2

/-- The pool after the first object was destroyed again. -/
def poolFreed : ObjectManager := poolOne.Destroy firstHandle

/-- Two objects are created, the first one is destroyed, a third one is created. -/
def history : List PoolOp :=
  [PoolOp.create 1000, PoolOp.create 2000, PoolOp.destroy ⟨1000, 0, 0⟩, PoolOp.create 3000]

/-- The handle the last `Create` of `history` returned. -/
def thirdHandle : ObjectPtr :=
  ((ObjectManager.empty.run
    [PoolOp.create 1000, PoolOp.create 2000, PoolOp.destroy ⟨1000, 0, 0⟩]).CreatePtr 3000).2

end Sample

namespace Object

/-- `Object::SelfPtr` (lines 47-52): `none` when the assertion `self == this` fails. -/
def SelfPtr (this_ : Object) (self : Nat) : Option ObjectPtr :=
  if self = this_.address then
    some (ObjectManager.GetPtrFast this_.address this_.m_ptrID this_.m_ptrGen)
  else none

end Object

/-! ## JSON members -/

namespace json

theorem find_assign_self (members : List (String × json)) (key : String) (value : json) :
    find (assign members key value) key = some value := by
  induction members with
  | nil => simp [assign, find]
  | cons kv rest ih =>
    obtain ⟨k, v⟩ := kv
    by_cases hk : k = key
    · simp [assign, find, hk]
    · simp [assign, find, hk, ih]

theorem find_assign_ne (members : List (String × json)) (key other : String) (value : json)
    (hne : key ≠ other) : find (assign members key value) other = find members other := by
  induction members with
  | nil => simp [assign, find, hne]
  | cons kv rest ih =>
    obtain ⟨k, v⟩ := kv
    by_cases hk : k = key
    · subst hk
      simp [assign, find, hne]
    · by_cases hko : k = other
      · subst hko
        simp [assign, find, hk]
      · simp [assign, find, hk, hko, ih]

theorem eq_object_of_properties {j : json} (hc : j.contains "properties" = true)
    (ho : (j.get "properties").is_object = true) :
    ∃ members props, j = object members ∧ find members "properties" = some (object props) := by
  cases j with
  | object members =>
    cases hf : find members "properties" with
    | none => simp [contains, hf] at hc
    | some pj =>
      cases pj with
      | object props => exact ⟨members, props, rfl, hf⟩
      | null => simp [get, hf, is_object] at ho
      | boolean b => simp [get, hf, is_object] at ho
      | number_integer n => simp [get, hf, is_object] at ho
      | string str => simp [get, hf, is_object] at ho
      | array items => simp [get, hf, is_object] at ho
  | null => simp [contains] at hc
  | boolean b => simp [contains] at hc
  | number_integer n => simp [contains] at hc
  | string str => simp [contains] at hc
  | array items => simp [contains] at hc

end json

/-! ## Serialize -/

namespace JsonSerializer

variable {Object variant : Type}

theorem serializedMembers_cons (self : JsonSerializer variant) (obj : Object)
    (p : property Object variant) (props : List (property Object variant))
    (acc : List (String × json)) :
    serializedMembers self obj (p :: props) acc =
      serializedMembers self obj props
        (match self.SerializeVariant (p.get_value obj) with
          | some jsonValue => json.assign acc p.get_name jsonValue
          | none => acc) := by
  simp [serializedMembers]

theorem foldl_serializeProperty (self : JsonSerializer variant) (obj : Object)
    (typeName : json) (props : List (property Object variant)) (acc : List (String × json)) :
    props.foldl (serializeProperty self obj)
        (json.object [("type", typeName), ("properties", json.object acc)]) =
      json.object [("type", typeName),
        ("properties", json.object (serializedMembers self obj props acc))] := by
  induction props generalizing acc with
  | nil => simp [serializedMembers]
  | cons p props ih =>
    rw [List.foldl_cons, serializedMembers_cons]
    cases hsv : self.SerializeVariant (p.get_value obj) with
    | none =>
      simp only [serializeProperty, hsv]
      exact ih acc
    | some jsonValue =>
      have hstep : serializeProperty self obj
          (json.object [("type", typeName), ("properties", json.object acc)]) p =
          json.object [("type", typeName),
            ("properties", json.object (json.assign acc p.get_name jsonValue))] := by
        simp [serializeProperty, hsv, json.set, json.get, json.find, json.assign]
      rw [hstep]
      exact ih _

theorem Serialize_eq (self : JsonSerializer variant) (type_get : Object → type Object variant)
    (obj : Object) :
    Serialize self type_get obj =
      json.object [("type", json.string (type_get obj).get_name),
        ("properties",
          json.object (serializedMembers self obj (type_get obj).get_properties []))] := by
  unfold Serialize
  simp only [json.set, json.assign]
  rw [if_neg (by decide)]
  exact foldl_serializeProperty self obj _ _ []

theorem find_serializedMembers_of_not_mem (self : JsonSerializer variant) (obj : Object)
    (key : String) (props : List (property Object variant)) (acc : List (String × json))
    (hk : ∀ p ∈ props, p.get_name ≠ key) :
    json.find (serializedMembers self obj props acc) key = json.find acc key := by
  induction props generalizing acc with
  | nil => simp [serializedMembers]
  | cons p props ih =>
    rw [serializedMembers_cons, ih _ (fun q hq => hk q (List.mem_cons_of_mem _ hq))]
    cases hsv : self.SerializeVariant (p.get_value obj) with
    | none => rfl
    | some jsonValue =>
      exact json.find_assign_ne acc p.get_name key jsonValue (hk p (List.mem_cons_self _ _))

theorem find_serializedMembers_of_mem (self : JsonSerializer variant) (obj : Object)
    (props : List (property Object variant)) (acc : List (String × json))
    (hn : (props.map property.get_name).Nodup) (p : property Object variant)
    (hp : p ∈ props) :
    json.find (serializedMembers self obj props acc) p.get_name =
      match self.SerializeVariant (p.get_value obj) with
      | some jsonValue => some jsonValue
      | none => json.find acc p.get_name := by
  induction props generalizing acc with
  | nil => cases hp
  | cons q props ih =>
    rw [List.map_cons, List.nodup_cons] at hn
    rw [serializedMembers_cons]
    rcases List.mem_cons.mp hp with rfl | hmem
    · have hnot : ∀ r ∈ props, r.get_name ≠ p.get_name := by
        intro r hr heq
        exact hn.1 (List.mem_map.mpr ⟨r, hr, heq⟩)
      rw [find_serializedMembers_of_not_mem self obj p.get_name props _ hnot]
      cases hsv : self.SerializeVariant (p.get_value obj) with
      | none => rfl
      | some jsonValue => exact json.find_assign_self acc p.get_name jsonValue
    · rw [ih _ hn.2 hmem]
      have hne : q.get_name ≠ p.get_name := by
        intro heq
        exact hn.1 (List.mem_map.mpr ⟨p, hmem, heq.symm⟩)
      cases hsp : self.SerializeVariant (p.get_value obj) with
      | some jsonValue => rfl
      | none =>
        cases hsq : self.SerializeVariant (q.get_value obj) with
        | none => rfl
        | some jq => exact json.find_assign_ne acc q.get_name p.get_name jq hne

theorem exists_of_find_serializedMembers (self : JsonSerializer variant) (obj : Object)
    (key : String) (value : json) (props : List (property Object variant))
    (acc : List (String × json))
    (hf : json.find (serializedMembers self obj props acc) key = some value) :
    json.find acc key = some value ∨
      ∃ p ∈ props, p.get_name = key ∧ self.SerializeVariant (p.get_value obj) = some value := by
  induction props generalizing acc with
  | nil => exact Or.inl (by simpa [serializedMembers] using hf)
  | cons q props ih =>
    rw [serializedMembers_cons] at hf
    rcases ih _ hf with h | ⟨p, hp, hname, hsv⟩
    · cases hsq : self.SerializeVariant (q.get_value obj) with
      | none =>
        rw [hsq] at h
        exact Or.inl h
      | some jq =>
        rw [hsq] at h
        by_cases hqk : q.get_name = key
        · rw [← hqk, json.find_assign_self] at h
          cases h
          exact Or.inr ⟨q, List.mem_cons_self _ _, hqk, hsq⟩
        · rw [json.find_assign_ne acc q.get_name key jq hqk] at h
          exact Or.inl h
    · exact Or.inr ⟨p, List.mem_cons_of_mem _ hp, hname, hsv⟩

/-- C4. `Serialize` returns an object whose `type` member is the registered type name
and whose `properties` member is an object that maps the name of each declared
property to the value `SerializeVariant` gives for it, has no member for a declared
property whose value is not convertible, and has no other member. Property names
are pairwise distinct. -/
theorem Serialize_document (self : JsonSerializer variant)
    (type_get : Object → type Object variant) (obj : Object)
    (hn : ((type_get obj).get_properties.map property.get_name).Nodup) :
    (Serialize self type_get obj).get "type" = json.string (type_get obj).get_name ∧
    ∃ members, (Serialize self type_get obj).get "properties" = json.object members ∧
      (∀ p ∈ (type_get obj).get_properties,
        json.find members p.get_name = self.SerializeVariant (p.get_value obj)) ∧
      (∀ (key : String) (value : json), json.find members key = some value →
        ∃ p ∈ (type_get obj).get_properties, p.get_name = key ∧
          self.SerializeVariant (p.get_value obj) = some value) := by
  rw [Serialize_eq]
  refine ⟨by simp [json.get, json.find],
    serializedMembers self obj (type_get obj).get_properties [],
    by simp [json.get, json.find], ?_, ?_⟩
  · intro p hp
    rw [find_serializedMembers_of_mem self obj _ [] hn p hp]
    cases self.SerializeVariant (p.get_value obj) <;> rfl
  · intro key value hf
    rcases exists_of_find_serializedMembers self obj key value _ [] hf with h | h
    · simp [json.find] at h
    · exact h

end JsonSerializer

/-! ## Deserialize -/

namespace JsonSerializer

variable {Object variant : Type}

theorem Deserialize_of_properties (self : JsonSerializer variant)
    (type_get : Object → type Object variant) (j : json) (obj : Object)
    (hc : j.contains "properties" = true) (ho : (j.get "properties").is_object = true) :
    Deserialize self type_get j obj =
      (true, (type_get obj).get_properties.foldl (deserializeProperty self j) obj) := by
  unfold Deserialize
  simp [hc, ho]

/-- C2. On a document that has no `properties` key, or whose `properties` value is not a
JSON object, `Deserialize` returns false and the object is in its pre-call state. -/
theorem Deserialize_malformed (self : JsonSerializer variant)
    (type_get : Object → type Object variant) (j : json) (obj : Object)
    (h : j.contains "properties" = false ∨ (j.get "properties").is_object = false) :
    Deserialize self type_get j obj = (false, obj) := by
  unfold Deserialize
  rcases h with h | h <;> simp [h]

/-- C3. On a document whose `properties` value is a JSON object, `Deserialize` returns
true, for every converter `DeserializeVariant` and every list of declared
properties. -/
theorem Deserialize_returns_true (self : JsonSerializer variant)
    (type_get : Object → type Object variant) (j : json) (obj : Object)
    (hc : j.contains "properties" = true) (ho : (j.get "properties").is_object = true) :
    (Deserialize self type_get j obj).1 = true := by
  rw [Deserialize_of_properties self type_get j obj hc ho]

theorem foldl_deserializeProperty_congr (self : JsonSerializer variant) (j j' : json)
    (props : List (property Object variant)) (obj : Object)
    (h : ∀ p ∈ props, ∀ o : Object,
      deserializeProperty self j' o p = deserializeProperty self j o p) :
    props.foldl (deserializeProperty self j') obj =
      props.foldl (deserializeProperty self j) obj :=
  List.foldl_ext _ _ obj (fun o p hp => h p hp o)

/-- C5. For a document `d` whose `properties` value is a JSON object and a name `extra`
that no declared property of the object's type has, `Deserialize` of `d` with
`properties[extra] = value` added returns true and leaves the object in the same
state as `Deserialize` of `d`. -/
theorem Deserialize_ignores_unknown (self : JsonSerializer variant)
    (type_get : Object → type Object variant) (d : json) (obj : Object)
    (extra : String) (value : json)
    (hc : d.contains "properties" = true) (ho : (d.get "properties").is_object = true)
    (hx : ∀ p ∈ (type_get obj).get_properties, p.get_name ≠ extra) :
    Deserialize self type_get
        (d.set "properties" ((d.get "properties").set extra value)) obj =
      Deserialize self type_get d obj ∧
    (Deserialize self type_get
        (d.set "properties" ((d.get "properties").set extra value)) obj).1 = true := by
  obtain ⟨members, props, rfl, hf⟩ := json.eq_object_of_properties hc ho
  have hget : (json.object members).get "properties" = json.object props := by
    simp [json.get, hf]
  have hget' : ((json.object members).set "properties"
      (((json.object members).get "properties").set extra value)).get "properties" =
      json.object (json.assign props extra value) := by
    simp [json.get, json.set, hf, json.find_assign_self]
  have hc' : ((json.object members).set "properties"
      (((json.object members).get "properties").set extra value)).contains "properties" =
      true := by
    simp [json.contains, json.set, json.find_assign_self]
  have ho' : (((json.object members).set "properties"
      (((json.object members).get "properties").set extra value)).get
        "properties").is_object = true := by
    rw [hget']
    rfl
  have hsame : Deserialize self type_get ((json.object members).set "properties"
      (((json.object members).get "properties").set extra value)) obj =
      Deserialize self type_get (json.object members) obj := by
    rw [Deserialize_of_properties self type_get _ obj hc' ho',
      Deserialize_of_properties self type_get _ obj hc ho]
    congr 1
    apply foldl_deserializeProperty_congr
    intro p hp o
    have hne : extra ≠ p.get_name := fun heq => hx p hp heq.symm
    unfold deserializeProperty
    rw [hget', hget]
    simp only [json.contains, json.get]
    rw [json.find_assign_ne props extra p.get_name value hne]
  refine ⟨hsame, ?_⟩
  rw [hsame, Deserialize_of_properties self type_get _ obj hc ho]

theorem get_value_deserializeProperty_other (self : JsonSerializer variant) (j : json)
    (p q : property Object variant)
    (hq : ∀ (o : Object) (v : variant), q.get_value (p.set_value o v) = q.get_value o)
    (o : Object) :
    q.get_value (deserializeProperty self j o p) = q.get_value o := by
  unfold deserializeProperty
  dsimp only
  split
  · rfl
  · split
    · exact hq _ _
    · rfl

theorem get_value_deserializeProperty_self (self : JsonSerializer variant) (j : json)
    (p : property Object variant)
    (hp : ∀ (o : Object) (node : json) (v : variant),
      self.DeserializeVariant node (p.get_value o) = (true, v) →
      p.get_value (p.set_value o v) = v)
    (o : Object) :
    p.get_value (deserializeProperty self j o p) =
      convertedValue self j p.get_name (p.get_value o) := by
  unfold deserializeProperty convertedValue
  dsimp only
  by_cases hc : (!(j.get "properties").contains p.get_name) = true
  · rw [if_pos hc, if_pos hc]
  · rw [if_neg hc, if_neg hc]
    cases hdv : self.DeserializeVariant ((j.get "properties").get p.get_name)
        (p.get_value o) with
    | mk ok v =>
      cases ok with
      | true => exact hp o _ v hdv
      | false => rfl

theorem get_value_foldl_of_not_mem (self : JsonSerializer variant) (j : json)
    (q : property Object variant) (props : List (property Object variant))
    (hq : ∀ p ∈ props, ∀ (o : Object) (v : variant),
      q.get_value (p.set_value o v) = q.get_value o)
    (o : Object) :
    q.get_value (props.foldl (deserializeProperty self j) o) = q.get_value o := by
  induction props generalizing o with
  | nil => rfl
  | cons p props ih =>
    rw [List.foldl_cons, ih (fun r hr => hq r (List.mem_cons_of_mem _ hr))]
    exact get_value_deserializeProperty_other self j p q (hq p (List.mem_cons_self _ _)) o

theorem get_value_foldl_deserializeProperty (self : JsonSerializer variant) (j : json)
    (q : property Object variant) (props : List (property Object variant))
    (hr : ReflectsFields self props) (hq : q ∈ props) (o : Object) :
    q.get_value (props.foldl (deserializeProperty self j) o) =
      convertedValue self j q.get_name (q.get_value o) := by
  obtain ⟨hn, hconv, hother⟩ := hr
  revert hq o
  induction props with
  | nil => intro hq; cases hq
  | cons p props ih =>
    intro hq o
    rw [List.map_cons, List.nodup_cons] at hn
    rw [List.foldl_cons]
    rcases List.mem_cons.mp hq with rfl | hmem
    · rw [get_value_foldl_of_not_mem self j q props]
      · exact get_value_deserializeProperty_self self j q
          (hconv q (List.mem_cons_self _ _)) o
      · intro r hrmem
        apply hother r (List.mem_cons_of_mem _ hrmem) q (List.mem_cons_self _ _)
        intro heq
        exact hn.1 (List.mem_map.mpr ⟨r, hrmem, heq⟩)
    · rw [ih hn.2 (fun r hrmem => hconv r (List.mem_cons_of_mem _ hrmem))
        (fun r hrmem t ht => hother r (List.mem_cons_of_mem _ hrmem) t
          (List.mem_cons_of_mem _ ht)) hmem (deserializeProperty self j o p)]
      rw [get_value_deserializeProperty_other self j p q]
      apply hother p (List.mem_cons_self _ _) q hq
      intro heq
      exact hn.1 (List.mem_map.mpr ⟨q, hmem, heq.symm⟩)

/-- C6, amended. For a document whose `properties` value is the JSON object `members`
and a type whose declared properties have pairwise distinct names and whose setters
store the value `DeserializeVariant` converted and leave every other declared property
as it was: after `Deserialize`, a declared property whose name is not in `members`
has its pre-call value, and a declared property whose name is in `members` and whose
node `DeserializeVariant` converts has the converted value. Nothing is said for a
setter that rejects the value or writes another property: the code drops the result
of `set_value`. -/
theorem Deserialize_partial (self : JsonSerializer variant)
    (type_get : Object → type Object variant) (j : json) (obj : Object)
    (members : List (String × json))
    (hc : j.contains "properties" = true) (hm : j.get "properties" = json.object members)
    (hr : ReflectsFields self (type_get obj).get_properties) :
    (Deserialize self type_get j obj).1 = true ∧
    ∀ p ∈ (type_get obj).get_properties,
      (json.find members p.get_name = none →
        p.get_value (Deserialize self type_get j obj).2 = p.get_value obj) ∧
      (∀ (node : json) (v : variant), json.find members p.get_name = some node →
        self.DeserializeVariant node (p.get_value obj) = (true, v) →
        p.get_value (Deserialize self type_get j obj).2 = v) := by
  have ho : (j.get "properties").is_object = true := by
    rw [hm]
    rfl
  rw [Deserialize_of_properties self type_get j obj hc ho]
  refine ⟨rfl, ?_⟩
  intro p hp
  simp only []
  rw [get_value_foldl_deserializeProperty self j p _ hr hp obj]
  unfold convertedValue
  rw [hm]
  refine ⟨?_, ?_⟩
  · intro hnone
    simp [json.contains, hnone]
  · intro node v hsome hdv
    simp [json.contains, json.get, hsome, hdv]

/-- C1, amended. For objects `a` and `b` of the same registered type whose declared
properties have pairwise distinct names and whose setters store the value
`DeserializeVariant` converted and leave every other declared property as it was: if
every declared property value of `a` is convertible by `SerializeVariant` and
`DeserializeVariant` turns the resulting node back into that value when the target
holds the value of `b`, then `Deserialize(Serialize(a), b)` returns true and
afterwards every declared property of `b` equals the one of `a`. Nothing is said for
a setter that rejects the value or writes another property: the code drops the
result of `set_value`. -/
theorem Deserialize_Serialize (self : JsonSerializer variant)
    (type_get : Object → type Object variant) (a b : Object)
    (htype : type_get b = type_get a)
    (hr : ReflectsFields self (type_get a).get_properties)
    (hconv : ∀ p ∈ (type_get a).get_properties, ∃ node : json,
      self.SerializeVariant (p.get_value a) = some node ∧
      self.DeserializeVariant node (p.get_value b) = (true, p.get_value a)) :
    (Deserialize self type_get (Serialize self type_get a) b).1 = true ∧
    ∀ p ∈ (type_get a).get_properties,
      p.get_value (Deserialize self type_get (Serialize self type_get a) b).2 =
        p.get_value a := by
  have hget : (Serialize self type_get a).get "properties" =
      json.object (serializedMembers self a (type_get a).get_properties []) := by
    rw [Serialize_eq]
    simp [json.get, json.find]
  have hc : (Serialize self type_get a).contains "properties" = true := by
    rw [Serialize_eq]
    simp [json.contains, json.find]
  have ho : ((Serialize self type_get a).get "properties").is_object = true := by
    rw [hget]
    rfl
  rw [Deserialize_of_properties self type_get _ b hc ho, htype]
  refine ⟨rfl, ?_⟩
  intro p hp
  simp only []
  rw [get_value_foldl_deserializeProperty self _ p _ hr hp b]
  obtain ⟨node, hsv, hdv⟩ := hconv p hp
  have hfind : json.find (serializedMembers self a (type_get a).get_properties [])
      p.get_name = some node := by
    rw [find_serializedMembers_of_mem self a _ [] hr.names_nodup p hp, hsv]
  unfold convertedValue
  rw [hget]
  simp [json.contains, json.get, hfind, hdv]

end JsonSerializer

/-! ## Handles: identity of two handles -/

namespace ObjectPtr

theorem IsSameObject_eq (IsValidPtr : Nat → Nat → Nat → Bool) (a b : ObjectPtr) :
    a.IsSameObject IsValidPtr b =
      (decide (a.m_ptrID = b.m_ptrID) && decide (a.m_ptrGeneration = b.m_ptrGeneration) &&
        (IsValidPtr a.m_ptrID a.m_ptrGeneration a.m_raw &&
          IsValidPtr b.m_ptrID b.m_ptrGeneration b.m_raw)) := by
  unfold IsSameObject IsValid GetPtrID GetPtrGeneration GetBase
  by_cases h1 : a.m_ptrID = b.m_ptrID <;> by_cases h2 : a.m_ptrGeneration = b.m_ptrGeneration <;>
    simp [h1, h2]

/-- C7. For every validity query of the pool and all handles `a`, `b`: `a.IsSameObject(b)`
is true exactly when both have the same slot index and the same generation and each
one passes `IsValidPtr` on its own slot index, generation and cached address; two
stale handles with equal slot index and generation are not the same object. -/
theorem IsSameObject_iff (IsValidPtr : Nat → Nat → Nat → Bool) (a b : ObjectPtr) :
    (a.IsSameObject IsValidPtr b = true ↔
      (a.m_ptrID = b.m_ptrID ∧ a.m_ptrGeneration = b.m_ptrGeneration ∧
        IsValidPtr a.m_ptrID a.m_ptrGeneration a.m_raw = true ∧
        IsValidPtr b.m_ptrID b.m_ptrGeneration b.m_raw = true)) ∧
    (a.m_ptrID = b.m_ptrID → a.m_ptrGeneration = b.m_ptrGeneration →
      a.IsValid IsValidPtr = false → b.IsValid IsValidPtr = false →
      a.IsSameObject IsValidPtr b = false) := by
  refine ⟨?_, ?_⟩
  · rw [IsSameObject_eq]
    simp [Bool.and_eq_true, and_assoc]
  · intro _ _ ha _
    rw [IsSameObject_eq]
    unfold IsValid at ha
    simp [ha]

/-- C10. `IsSameObject` is symmetric, and a handle is the same object as itself exactly
when it is valid. -/
theorem IsSameObject_symm_refl (IsValidPtr : Nat → Nat → Nat → Bool) (a b : ObjectPtr) :
    a.IsSameObject IsValidPtr b = b.IsSameObject IsValidPtr a ∧
    a.IsSameObject IsValidPtr a = a.IsValid IsValidPtr := by
  refine ⟨?_, ?_⟩
  · rw [IsSameObject_eq, IsSameObject_eq]
    by_cases h1 : a.m_ptrID = b.m_ptrID <;>
      by_cases h2 : a.m_ptrGeneration = b.m_ptrGeneration <;>
      simp [h1, h2, eq_comm, Bool.and_comm]
  · rw [IsSameObject_eq]
    simp [IsValid]

end ObjectPtr

/-! ## Object pool: generations only grow -/

namespace ObjectManager

theorem freeSlot_some {m : ObjectManager} {i : Nat} {s : Slot}
    (h : m.freeSlot = some (i, s)) : m.slots[i]? = some s := by
  unfold freeSlot at h
  split at h
  · next k _ =>
    cases hk : m.slots[k]? with
    | none => simp [hk] at h
    | some sk =>
      simp [hk] at h
      obtain ⟨rfl, rfl⟩ := h
      exact hk
  · simp at h

theorem IsValidPtr_eq_true {m : ObjectManager} {i g a : Nat}
    (h : m.IsValidPtr i g a = true) :
    ∃ s, m.slots[i]? = some s ∧ s.occupied = true ∧ s.generation = g ∧
      s.payload.address = a := by
  unfold IsValidPtr at h
  cases hs : m.slots[i]? with
  | none => simp [hs] at h
  | some s =>
    simp [hs] at h
    exact ⟨s, rfl, h.1.1, h.1.2, h.2⟩

theorem IsValidPtr_of_slot {m : ObjectManager} {i : Nat} {s : Slot}
    (hs : m.slots[i]? = some s) (hocc : s.occupied = true) :
    m.IsValidPtr i s.generation s.payload.address = true := by
  unfold IsValidPtr
  simp [hs, hocc]

theorem IsValidPtr_of_generation_ne {m : ObjectManager} {i g a : Nat} {s : Slot}
    (hs : m.slots[i]? = some s) (hne : s.generation ≠ g) :
    m.IsValidPtr i g a = false := by
  unfold IsValidPtr
  simp [hs, hne]

theorem CreatePtr_generation_le (m : ObjectManager) (address i : Nat) (s : Slot)
    (hs : m.slots[i]? = some s) :
    ∃ s', (m.CreatePtr address).1.slots[i]? = some s' ∧ s.generation ≤ s'.generation := by
  have hi : i < m.slots.length := (List.getElem?_eq_some.mp hs).1
  unfold CreatePtr
  cases hf : m.freeSlot with
  | none =>
    refine ⟨s, ?_, le_refl _⟩
    simp [List.getElem?_append_left hi, hs]
  | some ks =>
    obtain ⟨k, sk⟩ := ks
    have hk := freeSlot_some hf
    by_cases hki : k = i
    · subst hki
      rw [hs] at hk
      cases hk
      exact ⟨⟨true, s.generation, ⟨address, k, s.generation⟩⟩,
        by simp [List.getElem?_set_self hi], le_refl _⟩
    · exact ⟨s, by simp [List.getElem?_set_ne hki, hs], le_refl _⟩

theorem Destroy_generation_le (m : ObjectManager) (h : ObjectPtr) (i : Nat) (s : Slot)
    (hs : m.slots[i]? = some s) :
    ∃ s', (m.Destroy h).slots[i]? = some s' ∧ s.generation ≤ s'.generation := by
  have hi : i < m.slots.length := (List.getElem?_eq_some.mp hs).1
  unfold Destroy
  split
  · split
    · next sh hsh =>
      by_cases hki : h.m_ptrID = i
      · rw [hki] at hsh
        rw [hs] at hsh
        cases hsh
        exact ⟨{ s with occupied := false, generation := s.generation + 1 },
          by simp [hki, List.getElem?_set_self hi], Nat.le_succ _⟩
      · exact ⟨s, by simp [List.getElem?_set_ne hki, hs], le_refl _⟩
    · exact ⟨s, hs, le_refl _⟩
  · exact ⟨s, hs, le_refl _⟩

theorem Destroy_of_valid (m : ObjectManager) (h : ObjectPtr)
    (hv : m.IsValidPtr h.m_ptrID h.m_ptrGeneration h.m_raw = true) :
    ∃ s, m.slots[h.m_ptrID]? = some s ∧ s.occupied = true ∧
      s.generation = h.m_ptrGeneration ∧
      (m.Destroy h).slots[h.m_ptrID]? =
        some { s with occupied := false, generation := h.m_ptrGeneration + 1 } := by
  obtain ⟨s, hs, hocc, hg, _⟩ := IsValidPtr_eq_true hv
  have hi : h.m_ptrID < m.slots.length := (List.getElem?_eq_some.mp hs).1
  refine ⟨s, hs, hocc, hg, ?_⟩
  unfold Destroy
  simp [hv, hs, List.getElem?_set_self hi, hg]

theorem run_generation_lt (ops : List PoolOp) (m : ObjectManager) (i g : Nat)
    (h : ∃ s, m.slots[i]? = some s ∧ g < s.generation) :
    ∃ s, (m.run ops).slots[i]? = some s ∧ g < s.generation := by
  induction ops generalizing m with
  | nil => exact h
  | cons op ops ih =>
    obtain ⟨s, hs, hg⟩ := h
    have hstep : ∃ s', (m.step op).slots[i]? = some s' ∧ s.generation ≤ s'.generation := by
      cases op with
      | create address => exact CreatePtr_generation_le m address i s hs
      | destroy hd => exact Destroy_generation_le m hd i s hs
    obtain ⟨s', hs', hle⟩ := hstep
    exact ih (m.step op) ⟨s', hs', lt_of_lt_of_le hg hle⟩

/-- C8. For every pool state, every handle that is valid in it and every later sequence
of Create/Destroy operations: `Destroy` of the handle raises the generation of its slot
from the handle's generation `G` to `G + 1` and frees the slot; after that and after
any further operations (a `Create` that reuses the slot included) the handle reports
`IsValid() == false`; and a handle of generation `G` does not validate in any pool
whose slot of that index stands at generation `G + 1`. -/
theorem stale_handle_never_validates (m : ObjectManager) (h : ObjectPtr)
    (ops : List PoolOp) (hv : h.IsValid m.IsValidPtr = true) :
    (∃ s s', m.slots[h.m_ptrID]? = some s ∧ s.generation = h.m_ptrGeneration ∧
        (m.Destroy h).slots[h.m_ptrID]? = some s' ∧ s'.occupied = false ∧
        s'.generation = s.generation + 1) ∧
    h.IsValid (m.Destroy h).IsValidPtr = false ∧
    h.IsValid ((m.Destroy h).run ops).IsValidPtr = false ∧
    (∀ (m' : ObjectManager) (s' : Slot), m'.slots[h.m_ptrID]? = some s' →
        s'.generation = h.m_ptrGeneration + 1 → h.IsValid m'.IsValidPtr = false) := by
  unfold ObjectPtr.IsValid at hv
  obtain ⟨s, hs, _, hg, hd⟩ := Destroy_of_valid m h hv
  have hrun : ∀ ops : List PoolOp,
      ObjectPtr.IsValid ((m.Destroy h).run ops).IsValidPtr h = false := by
    intro ops
    obtain ⟨s2, hs2, hlt⟩ := run_generation_lt ops (m.Destroy h) h.m_ptrID h.m_ptrGeneration
      ⟨_, hd, Nat.lt_succ_self _⟩
    exact IsValidPtr_of_generation_ne hs2 (Nat.ne_of_gt hlt)
  refine ⟨⟨s, _, hs, hg, hd, rfl, by simp [hg]⟩, hrun [], hrun ops, ?_⟩
  intro m' s' hs' hg'
  exact IsValidPtr_of_generation_ne hs' (by omega)

/-! ## Object pool: live objects know their slot -/

theorem Consistent_empty : Consistent empty := by
  intro i s hs
  simp [empty] at hs

theorem Consistent_CreatePtr (m : ObjectManager) (address : Nat) (hm : m.Consistent) :
    (m.CreatePtr address).1.Consistent := by
  intro j t ht hocc
  unfold CreatePtr at ht
  cases hf : m.freeSlot with
  | none =>
    simp only [hf] at ht
    rw [List.getElem?_append] at ht
    by_cases hj : j < m.slots.length
    · rw [if_pos hj] at ht
      exact hm j t ht hocc
    · rw [if_neg hj] at ht
      have hlen : j - m.slots.length < 1 := by
        by_contra hcon
        rw [List.getElem?_eq_none (by simpa using Nat.le_of_not_lt hcon)] at ht
        cases ht
      have hj0 : j - m.slots.length = 0 := by omega
      rw [hj0] at ht
      simp at ht
      subst ht
      exact ⟨by simp; omega, rfl⟩
  | some ks =>
    obtain ⟨k, sk⟩ := ks
    simp only [hf] at ht
    rw [List.getElem?_set] at ht
    by_cases hkj : k = j
    · rw [if_pos hkj] at ht
      split at ht
      · cases ht
        exact ⟨hkj, rfl⟩
      · cases ht
    · rw [if_neg hkj] at ht
      exact hm j t ht hocc

theorem Consistent_Destroy (m : ObjectManager) (h : ObjectPtr) (hm : m.Consistent) :
    (m.Destroy h).Consistent := by
  intro j t ht hocc
  unfold Destroy at ht
  split at ht
  · split at ht
    · next sh hsh =>
      simp only [] at ht
      rw [List.getElem?_set] at ht
      by_cases hkj : h.m_ptrID = j
      · rw [if_pos hkj] at ht
        split at ht
        · cases ht
          simp at hocc
        · cases ht
      · rw [if_neg hkj] at ht
        exact hm j t ht hocc
    · exact hm j t ht hocc
  · exact hm j t ht hocc

theorem Consistent_run (ops : List PoolOp) (m : ObjectManager) (hm : m.Consistent) :
    (m.run ops).Consistent := by
  induction ops generalizing m with
  | nil => exact hm
  | cons op ops ih =>
    apply ih (m.step op)
    cases op with
    | create address => exact Consistent_CreatePtr m address hm
    | destroy h => exact Consistent_Destroy m h hm

theorem SelfPtr_valid_of_Consistent (m : ObjectManager) (hm : m.Consistent) (i : Nat)
    (s : Slot) (hs : m.slots[i]? = some s) (hocc : s.occupied = true) :
    m.IsValidPtr s.payload.m_ptrID s.payload.m_ptrGen s.payload.address = true := by
  obtain ⟨hid, hgen⟩ := hm i s hs hocc
  rw [hid, hgen]
  exact IsValidPtr_of_slot hs hocc

/-- C9. In every pool state reached from the empty pool by Create/Destroy operations and
for every live object `obj` (the payload of an occupied slot): `obj.SelfPtr(&obj)`
returns the handle made of the address, slot index and generation of `obj`; that
handle is valid; and it is `IsSameObject` with every valid handle that refers to the
slot of `obj`. -/
theorem SelfPtr_identity (ops : List PoolOp) (i : Nat) (s : Slot)
    (hs : (empty.run ops).slots[i]? = some s) (hocc : s.occupied = true) :
    s.payload.SelfPtr s.payload.address =
      some ⟨s.payload.address, s.payload.m_ptrID, s.payload.m_ptrGen⟩ ∧
    ObjectPtr.IsValid (empty.run ops).IsValidPtr
      ⟨s.payload.address, s.payload.m_ptrID, s.payload.m_ptrGen⟩ = true ∧
    ∀ h : ObjectPtr, h.IsValid (empty.run ops).IsValidPtr = true →
      h.m_ptrID = s.payload.m_ptrID →
      ObjectPtr.IsSameObject (empty.run ops).IsValidPtr
        ⟨s.payload.address, s.payload.m_ptrID, s.payload.m_ptrGen⟩ h = true := by
  have hm : (empty.run ops).Consistent := Consistent_run ops empty Consistent_empty
  have hself := SelfPtr_valid_of_Consistent _ hm i s hs hocc
  obtain ⟨hid, hgen⟩ := hm i s hs hocc
  refine ⟨by simp [Object.SelfPtr, GetPtrFast], hself, ?_⟩
  intro h hv hslot
  rw [ObjectPtr.IsSameObject_eq]
  unfold ObjectPtr.IsValid at hv
  obtain ⟨s2, hs2, _, hg2, _⟩ := IsValidPtr_eq_true hv
  rw [hslot, hid, hs] at hs2
  cases hs2
  rw [hslot] at hv
  rw [hgen, hg2] at hself
  simp [hself, hv, hslot, hgen, hg2]

end ObjectManager

/-! ## The example type and pool at work -/

namespace Sample

theorem playerType_names_nodup :
    ((type_get hero).get_properties.map property.get_name).Nodup := by
  decide

theorem playerType_reflectsFields :
    ReflectsFields serializer playerType.get_properties := by
  refine ⟨by decide, ?_, ?_⟩
  · intro p hp o j v h
    simp only [playerType, List.mem_cons, List.mem_singleton, List.not_mem_nil, or_false] at hp
    rcases hp with rfl | rfl
    · cases j <;> simp [serializer, health] at h
      subst h
      rfl
    · cases j <;> simp [serializer, name] at h
      subst h
      rfl
  · intro p hp q hq hne o v
    simp only [playerType, List.mem_cons, List.mem_singleton, List.not_mem_nil, or_false]
      at hp hq
    rcases hp with rfl | rfl <;> rcases hq with rfl | rfl
    · exact absurd rfl hne
    · cases v <;> rfl
    · cases v <;> rfl
    · exact absurd rfl hne

theorem Deserialize_Serialize_witness :
    ReflectsFields serializer (type_get hero).get_properties ∧
    (serializer.Deserialize type_get (serializer.Serialize type_get hero) fresh).1 = true ∧
    health.get_value
      (serializer.Deserialize type_get (serializer.Serialize type_get hero) fresh).2 =
      variant.int 100 ∧
    name.get_value
      (serializer.Deserialize type_get (serializer.Serialize type_get hero) fresh).2 =
      variant.string "Hero" :=
  have hconv : ∀ p ∈ (type_get hero).get_properties, ∃ node : json,
      serializer.SerializeVariant (p.get_value hero) = some node ∧
      serializer.DeserializeVariant node (p.get_value fresh) = (true, p.get_value hero) := by
    intro p hp
    simp only [type_get, playerType, List.mem_cons, List.mem_singleton, List.not_mem_nil,
      or_false] at hp
    rcases hp with rfl | rfl
    · exact ⟨json.number_integer 100, rfl, rfl⟩
    · exact ⟨json.string "Hero", rfl, rfl⟩
  have h := JsonSerializer.Deserialize_Serialize serializer type_get hero fresh rfl
    playerType_reflectsFields hconv
  ⟨playerType_reflectsFields, h.1, h.2 health (List.mem_cons_self _ _),
    h.2 name (List.mem_cons_of_mem _ (List.mem_cons_self _ _))⟩

theorem Deserialize_malformed_witness :
    headerOnly.contains "properties" = false ∧
    serializer.Deserialize type_get headerOnly veteran = (false, veteran) :=
  ⟨by decide,
    JsonSerializer.Deserialize_malformed serializer type_get headerOnly veteran
      (Or.inl (by decide))⟩

theorem Deserialize_returns_true_witness :
    heroDocument.contains "properties" = true ∧
    (heroDocument.get "properties").is_object = true ∧
    failing.Deserialize type_get heroDocument veteran = (true, veteran) ∧
    (failing.Deserialize type_get heroDocument veteran).1 = true :=
  ⟨by decide, by decide, by decide,
    JsonSerializer.Deserialize_returns_true failing type_get heroDocument veteran
      (by decide) (by decide)⟩

theorem Serialize_document_witness :
    ((type_get hero).get_properties.map property.get_name).Nodup ∧
    (serializer.Serialize type_get hero).get "type" = json.string "Player" ∧
    ∃ members, (serializer.Serialize type_get hero).get "properties" = json.object members ∧
      (∀ p ∈ (type_get hero).get_properties,
        json.find members p.get_name = serializer.SerializeVariant (p.get_value hero)) ∧
      (∀ (key : String) (value : json), json.find members key = some value →
        ∃ p ∈ (type_get hero).get_properties, p.get_name = key ∧
          serializer.SerializeVariant (p.get_value hero) = some value) :=
  ⟨playerType_names_nodup,
    JsonSerializer.Serialize_document serializer type_get hero playerType_names_nodup⟩

theorem Deserialize_ignores_unknown_witness :
    heroDocument.contains "properties" = true ∧
    (heroDocument.get "properties").is_object = true ∧
    serializer.Deserialize type_get
        (heroDocument.set "properties"
          ((heroDocument.get "properties").set "legacyField" (json.number_integer 1)))
        veteran =
      serializer.Deserialize type_get heroDocument veteran ∧
    (serializer.Deserialize type_get
        (heroDocument.set "properties"
          ((heroDocument.get "properties").set "legacyField" (json.number_integer 1)))
        veteran).1 = true :=
  have hx : ∀ p ∈ (type_get veteran).get_properties, p.get_name ≠ "legacyField" := by
    intro p hp
    simp only [type_get, playerType, List.mem_cons, List.mem_singleton, List.not_mem_nil,
      or_false] at hp
    rcases hp with rfl | rfl <;> decide
  ⟨by decide, by decide,
    JsonSerializer.Deserialize_ignores_unknown serializer type_get heroDocument veteran
      "legacyField" (json.number_integer 1) (by decide) (by decide) hx⟩

theorem Deserialize_partial_witness :
    healthOnly.contains "properties" = true ∧
    healthOnly.get "properties" = json.object [("health", json.number_integer 55)] ∧
    (serializer.Deserialize type_get healthOnly veteran).1 = true ∧
    name.get_value (serializer.Deserialize type_get healthOnly veteran).2 =
      variant.string "Old" ∧
    health.get_value (serializer.Deserialize type_get healthOnly veteran).2 =
      variant.int 55 :=
  have h := JsonSerializer.Deserialize_partial serializer type_get healthOnly veteran
    [("health", json.number_integer 55)] (by decide) rfl playerType_reflectsFields
  ⟨by decide, rfl, h.1,
    (h.2 name (List.mem_cons_of_mem _ (List.mem_cons_self _ _))).1
      (by simp [json.find, name]),
    (h.2 health (List.mem_cons_self _ _)).2 (json.number_integer 55) (variant.int 55)
      (by simp [json.find, health]) rfl⟩

theorem IsSameObject_iff_witness :
    ObjectPtr.IsValid poolFreed.IsValidPtr ⟨1000, 0, 0⟩ = false ∧
    ObjectPtr.IsSameObject poolFreed.IsValidPtr ⟨1000, 0, 0⟩ ⟨1000, 0, 0⟩ = false :=
  ⟨by decide,
    (ObjectPtr.IsSameObject_iff poolFreed.IsValidPtr ⟨1000, 0, 0⟩ ⟨1000, 0, 0⟩).2 rfl rfl
      (by decide) (by decide)⟩

theorem stale_handle_never_validates_witness :
    firstHandle.IsValid poolOne.IsValidPtr = true ∧
    ((poolOne.Destroy firstHandle).run [PoolOp.create 1000]).slots =
      [⟨true, 1, ⟨1000, 0, 1⟩⟩] ∧
    firstHandle.IsValid
      ((poolOne.Destroy firstHandle).run [PoolOp.create 1000]).IsValidPtr = false :=
  ⟨by decide, by decide,
    (ObjectManager.stale_handle_never_validates poolOne firstHandle [PoolOp.create 1000]
      (by decide)).2.2.1⟩

theorem SelfPtr_identity_witness :
    (ObjectManager.empty.run history).slots[0]? = some ⟨true, 1, ⟨3000, 0, 1⟩⟩ ∧
    Object.SelfPtr ⟨3000, 0, 1⟩ 3000 = some ⟨3000, 0, 1⟩ ∧
    ObjectPtr.IsValid (ObjectManager.empty.run history).IsValidPtr ⟨3000, 0, 1⟩ = true ∧
    thirdHandle.IsValid (ObjectManager.empty.run history).IsValidPtr = true ∧
    ObjectPtr.IsSameObject (ObjectManager.empty.run history).IsValidPtr ⟨3000, 0, 1⟩
      thirdHandle = true :=
  have h := ObjectManager.SelfPtr_identity history 0 ⟨true, 1, ⟨3000, 0, 1⟩⟩
    (by decide) rfl
  ⟨by decide, h.1, h.2.1, by decide, h.2.2 thirdHandle (by decide) (by decide)⟩

/-- C1 as stated fails. With a read-only `health` the two objects have the same type
with distinct property names, every property value of `hero` converts and converts
back against the value of `fresh`, and `Deserialize(Serialize(hero), fresh)` returns
true, yet `health` is still 0 and not 100. With a `health` setter that also writes
`name` the premises hold as well and `name` ends as "touched", not "Hero". -/
theorem Deserialize_Serialize_counterexample :
    (readOnly_type_get fresh = readOnly_type_get hero ∧
      ((readOnly_type_get hero).get_properties.map property.get_name).Nodup ∧
      (∀ p ∈ (readOnly_type_get hero).get_properties, ∃ node : json,
        serializer.SerializeVariant (p.get_value hero) = some node ∧
        serializer.DeserializeVariant node (p.get_value fresh) = (true, p.get_value hero)) ∧
      serializer.Deserialize readOnly_type_get
        (serializer.Serialize readOnly_type_get hero) fresh = (true, ⟨0, "Hero"⟩) ∧
      readOnlyHealth ∈ (readOnly_type_get hero).get_properties ∧
      readOnlyHealth.get_value
        (serializer.Deserialize readOnly_type_get
          (serializer.Serialize readOnly_type_get hero) fresh).2 ≠
        readOnlyHealth.get_value hero) ∧
    (linked_type_get fresh = linked_type_get hero ∧
      ((linked_type_get hero).get_properties.map property.get_name).Nodup ∧
      (∀ p ∈ (linked_type_get hero).get_properties, ∃ node : json,
        serializer.SerializeVariant (p.get_value hero) = some node ∧
        serializer.DeserializeVariant node (p.get_value fresh) = (true, p.get_value hero)) ∧
      serializer.Deserialize linked_type_get
        (serializer.Serialize linked_type_get hero) fresh = (true, ⟨100, "touched"⟩) ∧
      name ∈ (linked_type_get hero).get_properties ∧
      name.get_value
        (serializer.Deserialize linked_type_get
          (serializer.Serialize linked_type_get hero) fresh).2 ≠
        name.get_value hero) := by
  refine ⟨⟨rfl, by decide, ?_, by decide, List.mem_cons_self _ _, by decide⟩,
    ⟨rfl, by decide, ?_, by decide, List.mem_cons_self _ _, by decide⟩⟩
  · intro p hp
    simp only [readOnly_type_get, readOnlyType, List.mem_cons, List.mem_singleton,
      List.not_mem_nil, or_false] at hp
    rcases hp with rfl | rfl
    · exact ⟨json.number_integer 100, rfl, rfl⟩
    · exact ⟨json.string "Hero", rfl, rfl⟩
  · intro p hp
    simp only [linked_type_get, linkedType, List.mem_cons, List.mem_singleton,
      List.not_mem_nil, or_false] at hp
    rcases hp with rfl | rfl
    · exact ⟨json.string "Hero", rfl, rfl⟩
    · exact ⟨json.number_integer 100, rfl, rfl⟩

/-- C6 as stated fails. The document `healthOnly` is well formed and has `health` but
not `name`. With a `health` setter that also writes `name`, the absent `name` does not
keep its pre-call value "Old". With a read-only `health`, the node of `health`
converts to 55 and `health` is still 7 after the call. -/
theorem Deserialize_partial_counterexample :
    healthOnly.contains "properties" = true ∧
    healthOnly.get "properties" = json.object [("health", json.number_integer 55)] ∧
    (name ∈ (linked_type_get veteran).get_properties ∧
      json.find [("health", json.number_integer 55)] name.get_name = none ∧
      serializer.Deserialize linked_type_get healthOnly veteran = (true, ⟨55, "touched"⟩) ∧
      name.get_value (serializer.Deserialize linked_type_get healthOnly veteran).2 ≠
        name.get_value veteran) ∧
    (readOnlyHealth ∈ (readOnly_type_get veteran).get_properties ∧
      json.find [("health", json.number_integer 55)] readOnlyHealth.get_name =
        some (json.number_integer 55) ∧
      serializer.DeserializeVariant (json.number_integer 55)
        (readOnlyHealth.get_value veteran) = (true, variant.int 55) ∧
      serializer.Deserialize readOnly_type_get healthOnly veteran = (true, ⟨7, "Old"⟩) ∧
      readOnlyHealth.get_value
        (serializer.Deserialize readOnly_type_get healthOnly veteran).2 ≠ variant.int 55) := by
  refine ⟨by decide, rfl,
    ⟨List.mem_cons_self _ _, by simp [json.find, name], by decide, by decide⟩,
    ⟨List.mem_cons_self _ _, by simp [json.find, readOnlyHealth], rfl, by decide,
      by decide⟩⟩

end Sample

end MMMEngine
